import Mathlib

/-!
Verification development for the `gdax_trader` repository.

This file shallowly embeds the repository's core (the currency graph of
`currency_graph.py` and the arbitrage decision engine of
`strategies/arbitrage.py` together with the balance utility of
`strategy.py`) and proves, or refutes, the specification claims about it.

Modelling conventions:
* Python `Decimal` values are modelled as exact rationals (`ℚ`).  All
  concrete quantities appearing in the claims are exactly representable,
  so no rounding behaviour of `Decimal` is involved.
* A graph node key `'{currency}_{side}'` (source `INDEX_FORMAT`) is
  modelled structurally as a pair of the currency string and the side.
* Python `dict`s are modelled as insertion-ordered association lists:
  updating an existing key keeps its position, a new key is appended.
  This matters because the algorithm iterates over `dict` keys.
* The sentinel `-1` stored in the `parents` map is modelled as `none`.
* Python exceptions are modelled with `Except`: a raised-and-uncaught
  exception is an `Except.error`.
-/

namespace Gdax

/-- Python `dict` with insertion order preserved. -/
abbrev Dict (α β : Type) := List (α × β)

/-- `d[k]` as an `Option` (`none` models a `KeyError`). -/
def dictGet {α β : Type} [DecidableEq α] : Dict α β → α → Option β
  | [], _ => none
  | (a, b) :: d, k => if a = k then some b else dictGet d k

/-- `d[k] = v`: update in place, or append a new key at the end. -/
def dictSet {α β : Type} [DecidableEq α] : Dict α β → α → β → Dict α β
  | [], k, v => [(k, v)]
  | (a, b) :: d, k, v => if a = k then (k, v) :: d else (a, b) :: dictSet d k v

/-- `d.keys()` in insertion order. -/
def dictKeys {α β : Type} (d : Dict α β) : List α := d.map Prod.fst

/-- The side half of a node key (`BID_KEY` / `ASK_KEY`). -/
inductive Side where
  | bid : Side
  | ask : Side
deriving DecidableEq, Repr

/-- A node key `'{currency}_{side}'`. -/
abbrev Node := String × Side

/-- The Python exceptions that the embedded code can raise. -/
inductive PyError where
  | keyError : PyError
  | attributeError : PyError
  | typeError : PyError
  | valueError : PyError
  | nameError : PyError
  | indexError : PyError
deriving DecidableEq, Repr

instance {ε α : Type} [DecidableEq ε] [DecidableEq α] :
    DecidableEq (Except ε α) := fun a b =>
  match a, b with
  | Except.ok x, Except.ok y =>
    if h : x = y then Decidable.isTrue (by rw [h])
    else Decidable.isFalse (fun hc => h (Except.ok.inj hc))
  | Except.error x, Except.error y =>
    if h : x = y then Decidable.isTrue (by rw [h])
    else Decidable.isFalse (fun hc => h (Except.error.inj hc))
  | Except.ok _, Except.error _ => Decidable.isFalse (fun hc => by cases hc)
  | Except.error _, Except.ok _ => Decidable.isFalse (fun hc => by cases hc)

/-- `CurrencyGraph` state: the list of added pairs (base, quote) and the
adjacency structure (edge weights). -/
structure CurrencyGraph where
  currency_pairs : List (String × String)
  currency_graph : Dict Node (Dict Node ℚ)

/-- `CurrencyGraph()` -/
def CurrencyGraph.init : CurrencyGraph := ⟨[], []⟩

/-- `self.currency_graph[u][v] = w` with the source's `try/except KeyError`
that creates the inner dict when `u` is new. -/
def addEdge (g : Dict Node (Dict Node ℚ)) (u v : Node) (w : ℚ) :
    Dict Node (Dict Node ℚ) :=
  match dictGet g u with
  | some inner => dictSet g u (dictSet inner v w)
  | none => dictSet g u [(v, w)]

/-- `CurrencyGraph.add_currency_pair(base, quote, bid, ask)`: records the
pair and adds the four edges, in the source's order. -/
def CurrencyGraph.add_currency_pair (g : CurrencyGraph) (base quote : String)
    (bid ask : ℚ) : CurrencyGraph :=
  let quote_bid : Node := (quote, Side.bid)
  let base_ask : Node := (base, Side.ask)
  let quote_ask : Node := (quote, Side.ask)
  let base_bid : Node := (base, Side.bid)
  let cg1 := addEdge g.currency_graph quote_bid base_ask bid
  let converted_ask : ℚ := 1 / ask
  let cg2 := addEdge cg1 base_bid quote_ask converted_ask
  let cg3 := addEdge cg2 quote_ask quote_bid 1
  let cg4 := addEdge cg3 base_ask base_bid 1
  { currency_pairs := g.currency_pairs ++ [(base, quote)],
    currency_graph := cg4 }

/-- `MAX_PATH_LENGTH` in `_get_path`. -/
def MAX_PATH_LENGTH : ℕ := 16

/-- The loop of `CurrencyGraph._get_path`:
`while p != start and p != -1 and i < MAX_PATH_LENGTH: p = parents[p];
path.insert(0, p); i += 1`.  `fuel` counts the remaining iterations. -/
def getPathAux (parents : Node → Option Node) (start : Node) :
    ℕ → Option Node → List (Option Node) → List (Option Node)
  | 0, _, path => path
  | fuel + 1, p, path =>
    match p with
    | none => path
    | some x =>
      if x = start then path
      else
        let q := parents x
        getPathAux parents start fuel q (q :: path)

/-- `CurrencyGraph._get_path(start, target, parents)`.  The entries are
`Option Node`; `none` is the `-1` sentinel, which Python may leave in the
returned list. -/
def get_path (parents : Node → Option Node) (start target : Node) :
    List (Option Node) :=
  getPathAux parents start MAX_PATH_LENGTH (some target) [some target]

/-- The mutable state of `find_arbitrage_path`: the three dicts, modelled
as total functions over node keys (lookups of keys absent from the Python
dicts do not occur during the search, see `find_arbitrage_path`). -/
structure SearchState where
  visited : Node → Bool
  distance : Node → ℚ
  parents : Node → Option Node

/-- One iteration of the inner `for next_node, weight in edges.items()`
loop of `find_arbitrage_path`: recompute the path from `start` to `node`,
and update `distance`/`parents` only if `next_node` is not on that path
and the candidate distance strictly improves. -/
def relaxEdge (start node : Node) (s : SearchState) (e : Node × ℚ) :
    SearchState :=
  let path := get_path s.parents start node
  if some e.1 ∈ path then s
  else
    let new_distance := s.distance node / e.2
    if s.distance e.1 < new_distance then
      { s with
        distance := fun x => if x = e.1 then new_distance else s.distance x,
        parents := fun x => if x = e.1 then some node else s.parents x }
    else s

/-- The node-selection loop of `find_arbitrage_path`:
`node = start; dist = 0; for i in keys: if not visited[i] and
dist < distance[i]: dist = distance[i]; node = i`. -/
def selectNext (keys : List Node) (visited : Node → Bool)
    (distance : Node → ℚ) (start : Node) : Node :=
  (keys.foldl
    (fun acc i =>
      if visited i = false ∧ acc.2 < distance i then (i, distance i) else acc)
    ((start, (0 : ℚ)) : Node × ℚ)).1

/-- The `while not visited[node]` loop of `find_arbitrage_path`.  Each
iteration marks an unvisited node, so `keys.length + 1` fuel is enough to
reach the exit condition; the invariant lemmas below hold for any fuel. -/
def searchLoop (g : Dict Node (Dict Node ℚ)) (start : Node) :
    ℕ → Node → SearchState → SearchState
  | 0, _, s => s
  | fuel + 1, node, s =>
    if s.visited node then s
    else
      let s1 : SearchState :=
        { s with visited := fun x => if x = node then true else s.visited x }
      let edges := (dictGet g node).getD []
      let s2 := edges.foldl (relaxEdge start node) s1
      let node' := selectNext (dictKeys g) s2.visited s2.distance start
      searchLoop g start fuel node' s2

/-- `CurrencyGraph.find_arbitrage_path(start, target)`.  When `start` is
not a node of the graph, the first `visited[node]` lookup raises
`KeyError` (the earlier `distance[start] = Decimal(1)` is an assignment,
not a lookup).  A `target` absent from the graph would likewise raise on
`parents[target]`; no claim exercises that case and the embedding then
returns the default-valued path and distance instead. -/
def CurrencyGraph.find_arbitrage_path (cg : CurrencyGraph)
    (start target : Node) : Except PyError (List (Option Node) × ℚ) :=
  let keys := dictKeys cg.currency_graph
  if start ∈ keys then
    let s0 : SearchState :=
      { visited := fun _ => false,
        distance := fun x => if x = start then 1 else 0,
        parents := fun _ => none }
    let sF := searchLoop cg.currency_graph start (keys.length + 1) start s0
    Except.ok (get_path sF.parents start target, sF.distance target)
  else Except.error PyError.keyError

/-- `CurrencyGraph.get_bid(currency)` -/
def CurrencyGraph.get_bid (currency : String) : Node := (currency, Side.bid)

/-- `CurrencyGraph.get_ask(currency)` -/
def CurrencyGraph.get_ask (currency : String) : Node := (currency, Side.ask)

/-- `CurrencyGraph.get_base(currency_pair)`: `split('-')[0]`, `None` on
`IndexError`. -/
def CurrencyGraph.get_base (currency_pair : String) : Option String :=
  (currency_pair.splitOn "-").get? 0

/-- `CurrencyGraph.get_quote(currency_pair)`: `split('-')[1]`, `None` on
`IndexError`. -/
def CurrencyGraph.get_quote (currency_pair : String) : Option String :=
  (currency_pair.splitOn "-").get? 1

/-- `CurrencyGraph.get_currency(key)`.  Applied to the `-1` sentinel
(`none`) the Python source raises `AttributeError` (`int` has no
`split`). -/
def get_currency : Option Node → Except PyError String
  | none => Except.error PyError.attributeError
  | some x => Except.ok x.1

/-- `CurrencyGraph.is_bid(key)`; `AttributeError` on the `-1` sentinel. -/
def is_bid : Option Node → Except PyError Bool
  | none => Except.error PyError.attributeError
  | some x => Except.ok (decide (x.2 = Side.bid))

/-- The scan of `CurrencyGraph.get_currency_pair` over `currency_pairs`:
the first pair both of whose currencies occur among `{c1, c2}` wins;
`(None, None)` when there is none. -/
def findPair : List (String × String) → String → String →
    Option String × Option String
  | [], _, _ => (none, none)
  | (base, quote) :: rest, c1, c2 =>
    if (base = c1 ∨ base = c2) ∧ (quote = c1 ∨ quote = c2) then
      (some base, some quote)
    else findPair rest c1 c2

/-- `CurrencyGraph.get_currency_pair(key1, key2)`. -/
def CurrencyGraph.get_currency_pair (g : CurrencyGraph)
    (key1 key2 : Option Node) :
    Except PyError (Option String × Option String) := do
  let currency1 ← get_currency key1
  let currency2 ← get_currency key2
  pure (findPair g.currency_pairs currency1 currency2)

/-- The loop of `CurrencyGraph.get_next_currency_pair`:
`for i in range(len(path) - 1): ...; if is_bid(path[i]): break`.
After the loop, `current_node`/`next_node` hold the pair at the break
index, or the last scanned pair when no scanned node was a Bid node.
A path shorter than 2 leaves the loop variables unbound (`NameError`). -/
def nextPairScan : List (Option Node) →
    Except PyError (Option Node × Option Node)
  | [] => Except.error PyError.nameError
  | [_] => Except.error PyError.nameError
  | a :: b :: rest => do
    let bidHere ← is_bid a
    if bidHere then pure (a, b)
    else
      match rest with
      | [] => pure (a, b)
      | _ :: _ => nextPairScan (b :: rest)

/-- `CurrencyGraph.get_next_currency_pair(path)`. -/
def CurrencyGraph.get_next_currency_pair (g : CurrencyGraph)
    (path : List (Option Node)) :
    Except PyError (Option String × Option String × Option Node) := do
  let (current_node, next_node) ← nextPairScan path
  let (base, quote) ← g.get_currency_pair current_node next_node
  pure (base, quote, current_node)

/-- Python `str(x)` of an optional string, as used by
`'{}-{}'.format(base, quote)` (`None` prints as `"None"`). -/
def optStr : Option String → String
  | none => "None"
  | some s => s

/-- The trade signals `BUY_ORDER` / `SELL_ORDER`. -/
inductive TradeSignal where
  | buy : TradeSignal
  | sell : TradeSignal
deriving DecidableEq, Repr

/-- `CurrencyGraph.get_next_signal(path)`: `none` models the Python
return value `False` ("no actionable trade"). -/
def CurrencyGraph.get_next_signal (g : CurrencyGraph)
    (path : List (Option Node)) :
    Except PyError (Option (TradeSignal × String)) := do
  let (base, quote, current_node) ← g.get_next_currency_pair path
  let currency ← get_currency current_node
  let currency_pair := optStr base ++ "-" ++ optStr quote
  if quote = some currency then pure (some (TradeSignal.buy, currency_pair))
  else if base = some currency then
    pure (some (TradeSignal.sell, currency_pair))
  else pure none

/-- Digit-string to accumulator; `none` on a non-digit. -/
def parseDigits : List Char → ℕ → Option ℕ
  | [], acc => some acc
  | c :: cs, acc =>
    if c.isDigit then parseDigits cs (acc * 10 + (c.toNat - 48)) else none

/-- Split a character list at the first `'.'`. -/
def splitDot : List Char → List Char × List Char
  | [] => ([], [])
  | c :: cs =>
    if c = '.' then ([], cs)
    else
      let (a, b) := splitDot cs
      (c :: a, b)

/-- `Decimal(s)` (and `float(s)`) on plain decimal literals: optional
sign, digits, optional fractional part; `none` models
`InvalidOperation` / `ValueError`.  Exotic accepted spellings
(exponents, `'Infinity'`, ...) play no role in any claim, and `float`
results are modelled as exact rationals (all concrete values involved
are exactly representable). -/
def parseDecimal (s : String) : Option ℚ :=
  let parseUnsigned : List Char → ℤ → Option ℚ := fun cs sign =>
    let (intPart, fracPart) := splitDot cs
    if intPart.isEmpty ∧ fracPart.isEmpty then none
    else
      match parseDigits intPart 0, parseDigits fracPart 0 with
      | some ip, some fp =>
        some ((sign * (ip * 10 ^ fracPart.length + fp) : ℤ) /
          ((10 : ℚ) ^ fracPart.length))
      | _, _ => none
  match s.toList with
  | '-' :: cs => parseUnsigned cs (-1)
  | '+' :: cs => parseUnsigned cs 1
  | cs => parseUnsigned cs 1

/-! ## The arbitrage decision engine (`strategies/arbitrage.py`,
`strategy.py`)

Provider (GDAX) data is JSON, so numeric fields arrive as strings and
are parsed with `Decimal`/`float` at each use.  Timestamps are modelled
as decimal-seconds strings: `datetime.strptime` failure on an
ill-formed `created_at` is a parse failure (an uncaught `ValueError`),
and `datetime.now()` is made explicit as the `now` field of the
environment. -/

/-- One element of the `accounts` list.  `none` fields model missing
keys. -/
structure Account where
  currency : Option String
  balance : Option String
deriving DecidableEq, Repr

/-- Ticker data for one product. -/
structure Ticker where
  bid : Option String
  ask : Option String
deriving DecidableEq, Repr

/-- An order dict as returned by the provider (and as stored in
`self.orders`).  `message` records whether a `'message'` key is
present (an error payload); the other `none`s model missing keys. -/
structure Order where
  id : Option String
  order_id : Option String
  status : Option String
  settled : Option Bool
  done_reason : Option String
  message : Bool
  price : Option String
  product_id : Option String
  created_at : Option String
deriving DecidableEq, Repr

/-- Outcome of a provider call: a transient transport failure
(`ConnectionError`) or a response dict. -/
inductive TradeResp where
  | connError : TradeResp
  | resp : Order → TradeResp
deriving DecidableEq, Repr

/-- `ArbitrageStrategy.START_NODE` -/
def START_NODE : String := "USD"

/-- `ArbitrageStrategy.TARGET_NODE` -/
def TARGET_NODE : String := "USD"

/-- `ArbitrageStrategy.THRESHOLD`: the float `1.002`, i.e. the exact
rational value of the IEEE-754 double nearest to 1.002
(`4512606826625237 * 2 ^ (-52)` =
1.0020000000000000017763568394…).  The comparison
`spread > THRESHOLD` compares a `Decimal` with this float, which
Python performs exactly against the float's true value. -/
def THRESHOLD : ℚ := 4512606826625237 / 4503599627370496

/-- `Strategy.get_currency_balance(currency)`: first account whose
`'currency'` matches and whose balance parses; any failure skips to
the next account; `None` when no account qualifies. -/
def get_currency_balance (accounts : List Account) (currency : String) :
    Option ℚ :=
  match accounts with
  | [] => none
  | a :: rest =>
    match a.currency, a.balance with
    | some c, some s =>
      if c = currency then
        match parseDecimal s with
        | some q => some q
        | none => get_currency_balance rest currency
      else get_currency_balance rest currency
    | some c, none =>
      if c = currency then get_currency_balance rest currency
      else get_currency_balance rest currency
    | _, _ => get_currency_balance rest currency

/-- The value held in `market_price`: a `Decimal`, the raw recorded
order price (a `str` in provider data), or Python `None`. -/
inductive MarketPrice where
  | dec : ℚ → MarketPrice
  | raw : String → MarketPrice
  | pynone : MarketPrice
deriving DecidableEq, Repr

/-- `ArbitrageStrategy._get_market_price(signal, product)`: start from
the recorded order price (`None` if there is no order or no price
key); a Buy signal replaces it with the parsed ticker bid, a Sell
signal with the parsed ticker ask; invalid ticker data keeps the
fallback. -/
def get_market_price (orders : Dict String (Option Order))
    (current_node : String) (ticker : Dict String Ticker)
    (signal : TradeSignal) (product : String) : MarketPrice :=
  let fallback : MarketPrice :=
    match dictGet orders current_node with
    | some (some od) =>
      match od.price with
      | some s => MarketPrice.raw s
      | none => MarketPrice.pynone
    | _ => MarketPrice.pynone
  let fromTicker : Option ℚ :=
    match signal with
    | TradeSignal.buy =>
      (dictGet ticker product).bind (fun t => t.bid.bind parseDecimal)
    | TradeSignal.sell =>
      (dictGet ticker product).bind (fun t => t.ask.bind parseDecimal)
  match fromTicker with
  | some q => MarketPrice.dec q
  | none => fallback

/-- `ArbitrageStrategy._track_order()`: returns the Python return value
together with the updated `self.orders`.  `getOrder` is the provider's
`get_order` endpoint. -/
def track_order (getOrder : String → TradeResp)
    (orders : Dict String (Option Order)) (current_node : String) :
    Bool × Dict String (Option Order) :=
  match dictGet orders current_node with
  | some (some od) =>
    match od.id with
    | some oid =>
      match getOrder oid with
      | TradeResp.connError => (false, orders)
      | TradeResp.resp order =>
        let cancelled := order.done_reason = some "cancelled"
        let rejected := order.status = some "rejected"
        let is_done := order.status = some "done"
        let is_settled := order.settled = some true
        let order_error := order.message = true
        if order_error ∨ cancelled ∨ rejected ∨ (is_done ∧ is_settled) then
          (false, dictSet orders current_node none)
        else (true, dictSet orders current_node (some order))
    | none => (false, orders)
  | _ => (false, orders)

/-- `ArbitrageStrategy._build_currency_graph()`: `Option.none` models
the Python return value `None` (invalid/missing ticker data);
`Except.error` models the uncaught `IndexError` on a product string
without `'-'`. -/
def build_currency_graph (products : List String)
    (ticker : Dict String Ticker) : Except PyError (Option CurrencyGraph) :=
  buildAux products ticker CurrencyGraph.init
where
  buildAux : List String → Dict String Ticker → CurrencyGraph →
      Except PyError (Option CurrencyGraph)
    | [], _, g => Except.ok (some g)
    | p :: ps, ticker, g =>
      match (p.splitOn "-").get? 1 with
      | none => Except.error PyError.indexError
      | some quot =>
        let base := ((p.splitOn "-").get? 0).getD ""
        match (dictGet ticker p).bind (fun t => t.bid.bind parseDecimal),
            (dictGet ticker p).bind (fun t => t.ask.bind parseDecimal) with
        | some bid, some ask =>
          buildAux ps ticker (g.add_currency_pair base quot bid ask)
        | _, _ => Except.ok none

/-- The error raised out of `_get_currency_path` /
`_get_trade_signal`: either the strategy's own
`MissingCurrencyGraph`, or an uncaught Python exception. -/
inductive StratError where
  | missingCurrencyGraph : StratError
  | py : PyError → StratError
deriving DecidableEq, Repr

/-- `ArbitrageStrategy._get_currency_path(currency_graph)`: only
`AttributeError` (a `None` graph) is converted to
`MissingCurrencyGraph`; any other exception from
`find_arbitrage_path` — in particular `KeyError` — propagates. -/
def get_currency_path (currency_graph : Option CurrencyGraph)
    (current_node : String) :
    Except StratError (List (Option Node) × ℚ) :=
  match currency_graph with
  | none => Except.error StratError.missingCurrencyGraph
  | some g =>
    match g.find_arbitrage_path (CurrencyGraph.get_bid current_node)
        (CurrencyGraph.get_ask TARGET_NODE) with
    | Except.ok r => Except.ok r
    | Except.error e => Except.error (StratError.py e)

/-- `ArbitrageStrategy._get_trade_signal()`.  When `get_next_signal`
returns `False`, the source evaluates `False + (distance,)`, raising
an uncaught `TypeError`. -/
def get_trade_signal (products : List String)
    (ticker : Dict String Ticker) (current_node : String) :
    Except StratError (TradeSignal × String × ℚ) :=
  match build_currency_graph products ticker with
  | Except.error e => Except.error (StratError.py e)
  | Except.ok cg =>
    match get_currency_path cg current_node with
    | Except.error e => Except.error e
    | Except.ok (path, distance) =>
      match cg with
      | none => Except.error StratError.missingCurrencyGraph
      | some g =>
        match g.get_next_signal path with
        | Except.error e => Except.error (StratError.py e)
        | Except.ok (some (signal, product)) =>
          Except.ok (signal, product, distance)
        | Except.ok none => Except.error (StratError.py PyError.typeError)

/-- `ArbitrageStrategy._update_pending_order(signal, product)`: returns
(Python return value, whether `_cancel_order` was invoked).
`_cancel_order` itself never modifies `self.orders`. -/
def update_pending_order (now : ℚ) (ticker : Dict String Ticker)
    (orders : Dict String (Option Order)) (current_node : String)
    (signal : TradeSignal) (product : String) :
    Except PyError (Bool × Bool) :=
  match dictGet orders current_node with
  | some (some od) =>
    match od.product_id, od.price, od.created_at with
    | some product_id, some priceS, some created_atS =>
      match parseDecimal priceS with
      | none => Except.ok (false, false)
      | some price =>
        match parseDecimal created_atS with
        | none => Except.error PyError.valueError
        | some created_at =>
          let same_product := product_id = product
          let market_price :=
            get_market_price orders current_node ticker signal product
          let price_differs : Bool :=
            match market_price with
            | MarketPrice.dec q => decide (price ≠ q)
            | MarketPrice.raw _ => true
            | MarketPrice.pynone => true
          if now - created_at > 60 ∧ (¬ same_product ∨ price_differs = true)
          then Except.ok (true, true)
          else Except.ok (true, false)
    | _, _, _ => Except.ok (false, false)
  | _ => Except.ok (false, false)

/-- Result of `_place_order`: the updated `self.orders` and the Python
return value. -/
structure PlaceResult where
  orders : Dict String (Option Order)
  placed : Bool
deriving DecidableEq, Repr

/-- `ArbitrageStrategy._place_order(signal, product, distance)`.
`Except.error` models the uncaught `TypeError`s:
* `spread = distance / market_price` with a non-`Decimal` market price
  (the raw recorded string, or `None`);
* the sizing lines.  `get_currency_balance` returns a Python *float*
  (or `None`), while `market_price` is a `Decimal`, and Python raises
  `TypeError` on any arithmetic mixing `float` (or `None`) with
  `Decimal` — so `size = balance / market_price` (Buy) and
  `size = balance * market_price` (Sell) always raise, the exception
  is not caught (the `try` around `trader.buy`/`trader.sell` covers
  only `ConnectionError` and starts after the sizing line), and the
  subsequent submit/record code (`buyResp`/`sellResp`) is
  unreachable. -/
def place_order (accounts : List Account) (ticker : Dict String Ticker)
    (_buyResp _sellResp : TradeResp) (orders : Dict String (Option Order))
    (current_node : String) (signal : TradeSignal) (product : String)
    (distance : ℚ) : Except PyError PlaceResult :=
  match dictGet orders current_node with
  | some (some _) => Except.ok ⟨orders, false⟩
  | _ =>
    match get_market_price orders current_node ticker signal product with
    | MarketPrice.raw _ => Except.error PyError.typeError
    | MarketPrice.pynone => Except.error PyError.typeError
    | MarketPrice.dec market_price =>
      let spread := distance / market_price
      if spread > THRESHOLD then
        match signal with
        | TradeSignal.buy =>
          let currency := CurrencyGraph.get_quote product
          let _balance := currency.bind (get_currency_balance accounts)
          -- size = balance / market_price :
          -- float (or None) / Decimal raises the uncaught TypeError
          Except.error PyError.typeError
        | TradeSignal.sell =>
          let currency := CurrencyGraph.get_base product
          let _balance := currency.bind (get_currency_balance accounts)
          -- size = balance * market_price :
          -- float (or None) * Decimal raises the uncaught TypeError
          Except.error PyError.typeError
      else Except.ok ⟨orders, false⟩

/-- The per-cycle inputs: the provider snapshot handed to the strategy
by `next_data`, the provider endpoints reachable during the cycle, and
the current wall-clock time. -/
structure Env where
  accounts : List Account
  ticker : Dict String Ticker
  products : List String
  getOrder : String → TradeResp
  buyResp : TradeResp
  sellResp : TradeResp
  now : ℚ

/-- The cross-cycle strategy state: `self.current_node` and
`self.orders`. -/
structure StratState where
  current_node : String
  orders : Dict String (Option Order)
deriving DecidableEq, Repr

/-- One iteration of the `for account in self.accounts` loop of
`ArbitrageStrategy.next()`. -/
def processAccount (env : Env) (st : StratState) (a : Account) :
    Except PyError StratState :=
  match a.currency, a.balance with
  | some cur, some balS =>
    match parseDecimal balS with
    | none => Except.ok st
    | some balance =>
      if balance > 0 then
        let st1 : StratState := { st with current_node := cur }
        match get_trade_signal env.products env.ticker cur with
        | Except.error StratError.missingCurrencyGraph => Except.ok st1
        | Except.error (StratError.py e) => Except.error e
        | Except.ok (signal, product, distance) =>
          let tracked := track_order env.getOrder st1.orders cur
          let st2 : StratState := { st1 with orders := tracked.2 }
          if tracked.1 then
            match update_pending_order env.now env.ticker st2.orders cur
                signal product with
            | Except.error e => Except.error e
            | Except.ok _ => Except.ok st2
          else
            match place_order env.accounts env.ticker env.buyResp
                env.sellResp st2.orders cur signal product distance with
            | Except.error e => Except.error e
            | Except.ok r => Except.ok { st2 with orders := r.orders }
      else Except.ok st
  | _, _ => Except.ok st

/-- The loop of `ArbitrageStrategy.next()` over the accounts list. -/
def nextAux (env : Env) : List Account → StratState →
    Except PyError StratState
  | [], st => Except.ok st
  | a :: rest, st =>
    match processAccount env st a with
    | Except.error e => Except.error e
    | Except.ok st' => nextAux env rest st'

/-- `ArbitrageStrategy.next()`: one full decision cycle. -/
def next (env : Env) (st : StratState) : Except PyError StratState :=
  nextAux env env.accounts st

/-! ## Analysis devices for the cycle guard -/

/-- One backward step along the parent map, exactly as the `_get_path`
loop takes it: from `some x` move to `parents[x]` unless `x` is
`start`; the stop states (`start` reached, `-1` sentinel) are
absorbing. -/
def pstep (parents : Node → Option Node) (start : Node) :
    Option Node → Option Node
  | none => none
  | some x => if x = start then none else parents x

/-- The parent map has no cycle avoiding `start` of length at most 17.
A fixed point of `(pstep parents start)^[L]` at `some y` is exactly
such a cycle: the iteration can only return to `some y` if it never
meets `start` or the sentinel. -/
def CycFree (parents : Node → Option Node) (start : Node) : Prop :=
  ∀ (y : Node) (L : ℕ), 0 < L → L ≤ 17 →
    (pstep parents start)^[L] (some y) ≠ some y

/-! ## Statement devices for the engine claims -/

/-- The currency of an account that qualifies during the held-currency
scan of `next()`: its `'currency'` key is present and its balance
parses to a number strictly greater than 0. -/
def qualifyingCurrency (a : Account) : Option String :=
  match a.currency, a.balance with
  | some c, some s =>
    match parseDecimal s with
    | some q => if q > 0 then some c else none
    | _ => none
  | _, _ => none

/-- Modelled from the spec's words for C6 (`bestPathToSignal`): scan
left to right for the first node whose side is Bid and take the pair
of that node and the node immediately following it. -/
def specFirstBidPair : List Node → Option (Node × Node)
  | [] => none
  | a :: rest =>
    if a.2 = Side.bid then
      match rest with
      | b :: _ => some (a, b)
      | [] => none
    else specFirstBidPair rest

/-- Modelled from the spec's words for C6: resolve two currencies to
the first originally added CurrencyPair involving both. -/
def specResolvePair (pairs : List (String × String)) (c1 c2 : String) :
    Option (String × String) :=
  pairs.find? fun bq =>
    decide ((bq.1 = c1 ∨ bq.1 = c2) ∧ (bq.2 = c1 ∨ bq.2 = c2))

/-- Modelled from the spec's words for C6 (`bestPathToSignal`): Buy if
the resolved pair's quote currency matches the Bid node's currency,
Sell if its base currency matches, otherwise "no actionable trade". -/
def specNextSignal (g : CurrencyGraph) (path : List Node) :
    Option (TradeSignal × String) :=
  match specFirstBidPair path with
  | none => none
  | some (a, b) =>
    match specResolvePair g.currency_pairs a.1 b.1 with
    | none => none
    | some (base, quote) =>
      if quote = a.1 then some (TradeSignal.buy, base ++ "-" ++ quote)
      else if base = a.1 then some (TradeSignal.sell, base ++ "-" ++ quote)
      else none

/-! ## Concrete instances used by the counterexamples and witnesses -/

/-- The one-pair graph of the claim:
`add_currency_pair('A', 'B', bid=2, ask=0.5)`. -/
def pairGraphAB : CurrencyGraph :=
  CurrencyGraph.init.add_currency_pair "A" "B" 2 (1 / 2)

/-- A 10-currency graph whose best cycle from `S_bid` back to itself is
19 hops long: the up-ladder `S → U1 → ... → U4 → T` doubles the
distance at every pair, the down-ladder `T → D4 → ... → D1 → S`
preserves it.  When the edge `S_ask → S_bid` is relaxed, the path
reconstructed from the parent map is truncated at 16 hops and no
longer contains `S_bid`, so `distance[S_bid]` is overwritten. -/
def truncGraph : CurrencyGraph :=
  ((((((((((CurrencyGraph.init.add_currency_pair
    "S" "U1" 1000000 2).add_currency_pair
    "U1" "U2" 1000000 2).add_currency_pair
    "U2" "U3" 1000000 2).add_currency_pair
    "U3" "U4" 1000000 2).add_currency_pair
    "U4" "T" 1000000 2).add_currency_pair
    "D4" "T" 1 (1 / 1000000)).add_currency_pair
    "D3" "D4" 1 (1 / 1000000)).add_currency_pair
    "D2" "D3" 1 (1 / 1000000)).add_currency_pair
    "D1" "D2" 1 (1 / 1000000)).add_currency_pair
    "S" "D1" 1 (1 / 1000))

/-- A recorded open order (fields as the provider would return them). -/
def openOrder : Order :=
  { id := some "7", order_id := some "7", status := some "open",
    settled := some false, done_reason := none, message := false,
    price := some "1", product_id := some "BTC-USD", created_at := some "0" }

/-- A filled-and-settled order response. -/
def doneOrder : Order :=
  { id := some "8", order_id := none, status := some "done",
    settled := some true, done_reason := none, message := false,
    price := some "1", product_id := some "BTC-USD", created_at := some "0" }

/-- Ticker snapshot quoting `BTC-USD` at bid 1 / ask 1. -/
def oneTicker : Dict String Ticker :=
  [("BTC-USD", { bid := some "1", ask := some "1" })]

/-- An environment whose every provider order endpoint fails
transiently, with one positive USD account and a valid quote. -/
def c7Env : Env :=
  { accounts := [{ currency := some "USD", balance := some "1" }],
    ticker := oneTicker, products := ["BTC-USD"],
    getOrder := fun _ => TradeResp.connError,
    buyResp := TradeResp.connError, sellResp := TradeResp.connError,
    now := 0 }

/-- Strategy state holding one open order for USD. -/
def c7State : StratState := ⟨"USD", [("USD", some openOrder)]⟩

/-- One USD account with balance 10 (so Buy sizing has a balance to
mix with the `Decimal` price). -/
def c5Accounts : List Account :=
  [{ currency := some "USD", balance := some "10" }]

/-- Ticker quoting `BTC-USD` at bid 1 / ask 3. -/
def c2Ticker : Dict String Ticker :=
  [("BTC-USD", { bid := some "1", ask := some "3" })]

/-- One BTC account with balance 2. -/
def c2Accounts : List Account := [{ currency := some "BTC", balance := some "2" }]

/-- Ticker quoting `BTC-USD` at bid 2 / ask 2 (differs from the
recorded order price 1 of `openOrder`). -/
def c3Ticker : Dict String Ticker :=
  [("BTC-USD", { bid := some "2", ask := some "2" })]

/-- Two accounts with positive balances and no ticker data: the tick
processes both and leaves `current_node` at the second. -/
def c4Env : Env :=
  { accounts := [{ currency := some "A", balance := some "1" },
                 { currency := some "B", balance := some "1" }],
    ticker := [], products := ["BTC-USD"],
    getOrder := fun _ => TradeResp.connError,
    buyResp := TradeResp.connError, sellResp := TradeResp.connError,
    now := 0 }

end Gdax

namespace Gdax

/-! ## Theorems -/

set_option maxRecDepth 1000000

/-- `_get_path(start, start, parents)` is `[start]` for any parent
map. -/
theorem get_path_self (parents : Node → Option Node) (start : Node) :
    get_path parents start start = [some start] := by
  unfold get_path MAX_PATH_LENGTH
  rw [show (16 : ℕ) = 15 + 1 from rfl]
  simp [getPathAux]

/-- A single relaxation never decreases any distance. -/
theorem relaxEdge_distance_mono (start node : Node) (s : SearchState)
    (e : Node × ℚ) (x : Node) :
    s.distance x ≤ (relaxEdge start node s e).distance x := by
  unfold relaxEdge
  dsimp only
  split
  · exact le_refl _
  · split
    · rename_i hlt
      by_cases hx : x = e.1
      · subst hx
        simpa using le_of_lt hlt
      · simp [hx]
    · exact le_refl _

/-- The inner edge loop never decreases any distance. -/
theorem foldl_relax_distance_mono (start node : Node)
    (edges : List (Node × ℚ)) (s : SearchState) (x : Node) :
    s.distance x ≤ (edges.foldl (relaxEdge start node) s).distance x := by
  induction edges generalizing s with
  | nil => exact le_refl _
  | cons e es ih =>
    exact le_trans (relaxEdge_distance_mono start node s e x) (ih _)

/-- The whole search loop never decreases any distance. -/
theorem searchLoop_distance_mono (g : Dict Node (Dict Node ℚ))
    (start : Node) (fuel : ℕ) (node : Node) (s : SearchState) (x : Node) :
    s.distance x ≤ (searchLoop g start fuel node s).distance x := by
  induction fuel generalizing node s with
  | zero => exact le_refl _
  | succ n ih =>
    unfold searchLoop
    split
    · exact le_refl _
    · exact le_trans
        (foldl_relax_distance_mono start node _
          { s with visited := fun y => if y = node then true else s.visited y }
          x)
        (ih _ _)

/-- The `-1` sentinel is absorbing for the backward walk. -/
theorem pstep_none_iterate (f : Node → Option Node) (start : Node) (n : ℕ) :
    (pstep f start)^[n] none = none :=
  Function.iterate_fixed rfl n

/-- `pstep` off the stop states follows the parent map. -/
theorem pstep_some (f : Node → Option Node) (start x : Node)
    (hx : x ≠ start) : pstep f start (some x) = f x := by
  simp [pstep, hx]

/-- `getPathAux` only ever extends its accumulator. -/
theorem getPathAux_acc_subset (f : Node → Option Node) (start : Node) :
    ∀ (fuel : ℕ) (p : Option Node) (acc : List (Option Node)),
      acc ⊆ getPathAux f start fuel p acc := by
  intro fuel
  induction fuel with
  | zero => intro p acc z hz; exact hz
  | succ n ih =>
    intro p acc
    cases p with
    | none => intro z hz; simpa [getPathAux] using hz
    | some x =>
      by_cases hx : x = start
      · intro z hz; simpa [getPathAux, hx] using hz
      · intro z hz
        simp only [getPathAux, if_neg hx]
        exact ih _ _ (List.mem_cons_of_mem _ hz)

/-- Everything the backward walk reaches within the remaining fuel is
in the path that `getPathAux` produces. -/
theorem mem_getPathAux (f : Node → Option Node) (start : Node) :
    ∀ (fuel : ℕ) (p : Option Node) (acc : List (Option Node)) (j : ℕ)
      (y : Node), j ≤ fuel → (pstep f start)^[j] p = some y → p ∈ acc →
      some y ∈ getPathAux f start fuel p acc := by
  intro fuel
  induction fuel with
  | zero =>
    intro p acc j y hj hit hp
    have hj0 : j = 0 := Nat.le_zero.mp hj
    subst hj0
    simp only [Function.iterate_zero, id] at hit
    subst hit
    simpa [getPathAux] using hp
  | succ n ih =>
    intro p acc j y hj hit hp
    cases j with
    | zero =>
      simp only [Function.iterate_zero, id] at hit
      subst hit
      exact getPathAux_acc_subset f start (n + 1) (some y) acc hp
    | succ j' =>
      cases p with
      | none =>
        rw [pstep_none_iterate] at hit
        cases hit
      | some x =>
        by_cases hx : x = start
        · rw [Function.iterate_succ_apply] at hit
          have hps : pstep f start (some x) = none := by simp [pstep, hx]
          rw [hps, pstep_none_iterate] at hit
          cases hit
        · rw [Function.iterate_succ_apply, pstep_some f start x hx] at hit
          simp only [getPathAux, if_neg hx]
          exact ih (f x) (f x :: acc) j' y (Nat.succ_le_succ_iff.mp hj) hit
            (List.mem_cons_self _ _)

/-- Membership form for `_get_path`: a node reachable backwards from
`target` in at most 16 steps is on the reconstructed path. -/
theorem mem_get_path (f : Node → Option Node) (start target : Node)
    (j : ℕ) (y : Node) (hj : j ≤ 16)
    (hit : (pstep f start)^[j] (some target) = some y) :
    some y ∈ get_path f start target := by
  unfold get_path MAX_PATH_LENGTH
  exact mem_getPathAux f start 16 (some target) [some target] j y hj hit
    (by simp)

/-- The guarded update `parents[next] = node` preserves `CycFree`: a
new short cycle would have to pass through `next`, and rotating it
exhibits a backward walk from `node` to `next` of at most 16 steps in
the old map — which the live path check has excluded. -/
theorem cycFree_update (f : Node → Option Node) (start next node : Node)
    (hf : CycFree f start)
    (hguard : some next ∉ get_path f start node) :
    CycFree (fun x => if x = next then some node else f x) start := by
  intro y L hL0 hL17 hcyc
  set g : Node → Option Node :=
    fun x => if x = next then some node else f x with hg
  have hAgree : ∀ z : Option Node, z ≠ some next →
      pstep g start z = pstep f start z := by
    intro z hz
    cases z with
    | none => rfl
    | some x =>
      by_cases hx : x = start
      · simp [pstep, hx]
      · have hxn : x ≠ next := fun h => hz (by rw [h])
        simp [pstep, hx, hg, hxn]
  by_cases hex : ∃ i, i < L ∧ (pstep g start)^[i] (some y) = some next
  · obtain ⟨i, hiL, hi⟩ := hex
    have hrot : (pstep g start)^[L] (some next) = some next := by
      have h1 : (pstep g start)^[L + i] (some y) =
          (pstep g start)^[L] ((pstep g start)^[i] (some y)) :=
        Function.iterate_add_apply _ L i _
      have h2 : (pstep g start)^[i + L] (some y) =
          (pstep g start)^[i] ((pstep g start)^[L] (some y)) :=
        Function.iterate_add_apply _ i L _
      rw [hi] at h1
      rw [hcyc, hi] at h2
      rw [Nat.add_comm] at h1
      rw [h1] at h2
      exact h2
    have hns : next ≠ start := by
      intro h
      have habs : pstep g start (some next) = none := by simp [pstep, h]
      obtain ⟨L', rfl⟩ : ∃ L', L = L' + 1 :=
        ⟨L - 1, (Nat.succ_pred_eq_of_pos hL0).symm⟩
      rw [Function.iterate_succ_apply, habs, pstep_none_iterate] at hrot
      cases hrot
    have hstep1 : pstep g start (some next) = some node := by
      simp [pstep, hns, hg]
    obtain ⟨L', rfl⟩ : ∃ L', L = L' + 1 :=
      ⟨L - 1, (Nat.succ_pred_eq_of_pos hL0).symm⟩
    rw [Function.iterate_succ_apply, hstep1] at hrot
    have hexists : ∃ j, (pstep g start)^[j] (some node) = some next :=
      ⟨L', hrot⟩
    have hjspec : (pstep g start)^[Nat.find hexists] (some node) =
        some next := Nat.find_spec hexists
    have hjle : Nat.find hexists ≤ L' := Nat.find_min' hexists hrot
    have hAg : ∀ i, i ≤ Nat.find hexists →
        (pstep g start)^[i] (some node) = (pstep f start)^[i] (some node) := by
      intro i
      induction i with
      | zero => intro _; rfl
      | succ i' ih2 =>
        intro hij
        have hi'lt : i' < Nat.find hexists := Nat.lt_of_succ_le hij
        have he := ih2 (le_of_lt hi'lt)
        rw [Function.iterate_succ_apply', Function.iterate_succ_apply', he]
        have hne : (pstep f start)^[i'] (some node) ≠ some next := by
          rw [← he]
          exact Nat.find_min hexists hi'lt
        exact hAgree _ hne
    have hfj : (pstep f start)^[Nat.find hexists] (some node) = some next :=
      (hAg (Nat.find hexists) le_rfl) ▸ hjspec
    exact hguard (mem_get_path f start node (Nat.find hexists) next
      (le_trans hjle (by omega)) hfj)
  · push_neg at hex
    have hAg : ∀ i, i ≤ L →
        (pstep g start)^[i] (some y) = (pstep f start)^[i] (some y) := by
      intro i
      induction i with
      | zero => intro _; rfl
      | succ i' ih2 =>
        intro hij
        have hi'lt : i' < L := Nat.lt_of_succ_le hij
        have he := ih2 (le_of_lt hi'lt)
        rw [Function.iterate_succ_apply', Function.iterate_succ_apply', he]
        have hne : (pstep f start)^[i'] (some y) ≠ some next := by
          rw [← he]
          exact hex i' hi'lt
        exact hAgree _ hne
    exact hf y L hL0 hL17 ((hAg L le_rfl) ▸ hcyc)

/-- The all-`-1` initial parent map is trivially `CycFree`. -/
theorem cycFree_init (start : Node) :
    CycFree (fun _ : Node => (none : Option Node)) start := by
  intro y L hL0 _ hcyc
  obtain ⟨L', rfl⟩ : ∃ L', L = L' + 1 :=
    ⟨L - 1, (Nat.succ_pred_eq_of_pos hL0).symm⟩
  rw [Function.iterate_succ_apply] at hcyc
  have h1 : pstep (fun _ => none) start (some y) = none := by
    by_cases hy : y = start <;> simp [pstep, hy]
  rw [h1, pstep_none_iterate] at hcyc
  cases hcyc

/-- A single relaxation preserves `CycFree`. -/
theorem relaxEdge_cycFree (start node : Node) (s : SearchState)
    (e : Node × ℚ) (h : CycFree s.parents start) :
    CycFree (relaxEdge start node s e).parents start := by
  unfold relaxEdge
  dsimp only
  split
  · exact h
  · rename_i hmem
    split
    · exact cycFree_update s.parents start e.1 node h hmem
    · exact h

/-- The inner edge loop preserves `CycFree`. -/
theorem foldl_relax_cycFree (start node : Node) (edges : List (Node × ℚ))
    (s : SearchState) (h : CycFree s.parents start) :
    CycFree ((edges.foldl (relaxEdge start node) s).parents) start := by
  induction edges generalizing s with
  | nil => exact h
  | cons e es ih => exact ih _ (relaxEdge_cycFree start node s e h)

/-- The whole search loop preserves `CycFree`. -/
theorem searchLoop_cycFree (g : Dict Node (Dict Node ℚ)) (start : Node)
    (fuel : ℕ) (node : Node) (s : SearchState)
    (h : CycFree s.parents start) :
    CycFree (searchLoop g start fuel node s).parents start := by
  induction fuel generalizing node s with
  | zero => exact h
  | succ n ih =>
    unfold searchLoop
    split
    · exact h
    · exact ih _ _ (foldl_relax_cycFree start node _ _ h)

/-- Under `CycFree`, the reconstructed path never repeats an entry:
the accumulator entries are exactly the backward-walk positions, so a
repeat would close a cycle of length at most 16 avoiding `start`. -/
theorem getPathAux_nodup (f : Node → Option Node) (start : Node)
    (hcf : CycFree f start) :
    ∀ (fuel : ℕ) (p : Option Node) (acc : List (Option Node)),
      fuel ≤ 16 → acc.Nodup →
      (∀ z ∈ acc, ∃ j, j ≤ 16 - fuel ∧ (pstep f start)^[j] z = p) →
      (getPathAux f start fuel p acc).Nodup := by
  intro fuel
  induction fuel with
  | zero => intro p acc _ hnd _; exact hnd
  | succ n ih =>
    intro p acc hfuel hnd hreach
    cases p with
    | none => simpa [getPathAux] using hnd
    | some x =>
      by_cases hx : x = start
      · simpa [getPathAux, hx] using hnd
      · simp only [getPathAux, if_neg hx]
        apply ih
        · omega
        · refine List.nodup_cons.mpr ⟨?_, hnd⟩
          intro hmem
          obtain ⟨j, hj, hjz⟩ := hreach (f x) hmem
          have hiter : (pstep f start)^[j + 1] (f x) = f x := by
            rw [Function.iterate_succ_apply', hjz, pstep_some f start x hx]
          cases hfx : f x with
          | none =>
            rw [hfx, pstep_none_iterate] at hjz
            cases hjz
          | some w =>
            rw [hfx] at hiter
            exact hcf w (j + 1) (Nat.succ_pos _) (by omega) hiter
        · intro z hz
          rcases List.mem_cons.mp hz with hz1 | hz2
          · exact ⟨0, by omega, by simp [hz1]⟩
          · obtain ⟨j, hj, hjz⟩ := hreach z hz2
            refine ⟨j + 1, by omega, ?_⟩
            rw [Function.iterate_succ_apply', hjz, pstep_some f start x hx]

/-- Under `CycFree`, `_get_path` reconstructs a duplicate-free path. -/
theorem get_path_nodup (f : Node → Option Node) (start target : Node)
    (hcf : CycFree f start) : (get_path f start target).Nodup := by
  unfold get_path MAX_PATH_LENGTH
  apply getPathAux_nodup f start hcf 16 (some target) [some target]
    le_rfl (by simp)
  intro z hz
  have hz1 : z = some target := by simpa using hz
  exact ⟨0, by omega, by simp [hz1]⟩

/-- Updating a dict at one key leaves every other key's value alone. -/
theorem dictGet_dictSet_ne {α β : Type} [DecidableEq α] (d : Dict α β)
    (k c : α) (v : β) (h : c ≠ k) :
    dictGet (dictSet d k v) c = dictGet d c := by
  induction d with
  | nil =>
    simp only [dictSet, dictGet]
    rw [if_neg (fun hkc => h hkc.symm)]
  | cons p d ih =>
    obtain ⟨a, b⟩ := p
    by_cases hak : a = k
    · subst hak
      simp only [dictSet, if_pos rfl, dictGet]
      rw [if_neg (fun hkc => h hkc.symm), if_neg (fun hkc => h hkc.symm)]
    · simp only [dictSet, if_neg hak, dictGet]
      by_cases hac : a = c
      · rw [if_pos hac, if_pos hac]
      · rw [if_neg hac, if_neg hac, ih]

/-- Updating a dict at a key makes that key's value the new one. -/
theorem dictGet_dictSet_eq {α β : Type} [DecidableEq α] (d : Dict α β)
    (k : α) (v : β) : dictGet (dictSet d k v) k = some v := by
  induction d with
  | nil => simp [dictSet, dictGet]
  | cons p d ih =>
    obtain ⟨a, b⟩ := p
    by_cases hak : a = k
    · subst hak
      simp [dictSet, dictGet]
    · simp only [dictSet, if_neg hak, dictGet]
      exact ih

/-- `_track_order` only ever rewrites the entry of the currency it is
tracking. -/
theorem track_order_other (go : String → TradeResp)
    (orders : Dict String (Option Order)) (cur c : String) (h : c ≠ cur) :
    dictGet (track_order go orders cur).2 c = dictGet orders c := by
  rcases hd : dictGet orders cur with _ | (_ | od)
  · simp [track_order, hd]
  · simp [track_order, hd]
  · rcases hid : od.id with _ | oid
    · simp [track_order, hd, hid]
    · rcases hgo : go oid with _ | order
      · simp [track_order, hd, hid, hgo]
      · simp only [track_order, hd, hid, hgo]
        split
        · exact dictGet_dictSet_ne _ _ _ _ h
        · exact dictGet_dictSet_ne _ _ _ _ h

/-- A transient `get_order` failure makes `_track_order` return `False`
with `self.orders` untouched. -/
theorem track_order_connError (go : String → TradeResp)
    (orders : Dict String (Option Order)) (cur : String) (od : Order)
    (oid : String) (hd : dictGet orders cur = some (some od))
    (hid : od.id = some oid) (hgo : go oid = TradeResp.connError) :
    track_order go orders cur = (false, orders) := by
  simp [track_order, hd, hid, hgo]

/-- `_place_order` returns immediately, changing nothing, while an
order is still recorded for the held currency. -/
theorem place_order_open (accounts : List Account)
    (ticker : Dict String Ticker) (buyResp sellResp : TradeResp)
    (orders : Dict String (Option Order)) (cur : String)
    (signal : TradeSignal) (product : String) (distance : ℚ) (od : Order)
    (hd : dictGet orders cur = some (some od)) :
    place_order accounts ticker buyResp sellResp orders cur signal
      product distance = Except.ok ⟨orders, false⟩ := by
  simp [place_order, hd]

/-- On success `_place_order` either leaves `self.orders` alone or
rewrites the held currency's entry. -/
theorem place_order_orders (accounts : List Account)
    (ticker : Dict String Ticker) (buyResp sellResp : TradeResp)
    (orders : Dict String (Option Order)) (cur : String)
    (signal : TradeSignal) (product : String) (distance : ℚ)
    (r : PlaceResult)
    (hr : place_order accounts ticker buyResp sellResp orders cur signal
      product distance = Except.ok r) :
    r.orders = orders ∨ ∃ o, r.orders = dictSet orders cur (some o) := by
  unfold place_order at hr
  dsimp only at hr
  repeat' split at hr
  all_goals cases hr
  all_goals exact Or.inl rfl

/-- Core cycle invariant for C7: while the provider's `get_order`
fails transiently for the recorded order's id, no account iteration
can change that currency's recorded order (tracking returns early and
the new-order path is blocked by the open-order guard). -/
theorem processAccount_preserves (env : Env) (st : StratState)
    (a : Account) (c : String) (od : Order) (oid : String)
    (hid : od.id = some oid)
    (hgo : env.getOrder oid = TradeResp.connError)
    (hd : dictGet st.orders c = some (some od)) (stm : StratState)
    (hpa : processAccount env st a = Except.ok stm) :
    dictGet stm.orders c = some (some od) := by
  unfold processAccount at hpa
  rcases hc : a.currency with _ | cur
  · rw [hc] at hpa
    dsimp only at hpa
    cases hpa
    exact hd
  · rw [hc] at hpa
    rcases hb : a.balance with _ | balS
    · rw [hb] at hpa
      dsimp only at hpa
      cases hpa
      exact hd
    · rw [hb] at hpa
      dsimp only at hpa
      rcases hp : parseDecimal balS with _ | bal
      · rw [hp] at hpa
        dsimp only at hpa
        cases hpa
        exact hd
      · rw [hp] at hpa
        dsimp only at hpa
        by_cases hpos : bal > 0
        · rw [if_pos hpos] at hpa
          rcases hsig : get_trade_signal env.products env.ticker cur with
            e | ⟨signal, product, distance⟩
          · rw [hsig] at hpa
            rcases e with _ | e
            · cases hpa
              exact hd
            · cases hpa
          · rw [hsig] at hpa
            dsimp only at hpa
            by_cases hcc : c = cur
            · subst hcc
              rw [track_order_connError env.getOrder st.orders c od oid hd
                hid hgo] at hpa
              dsimp only at hpa
              rw [place_order_open env.accounts env.ticker env.buyResp
                env.sellResp st.orders c signal product distance od hd]
                at hpa
              cases hpa
              exact hd
            · have hother : dictGet (track_order env.getOrder st.orders
                  cur).2 c = dictGet st.orders c :=
                track_order_other env.getOrder st.orders cur c hcc
              split at hpa
              · split at hpa
                · cases hpa
                · cases hpa
                  rw [hother]
                  exact hd
              · rcases hpl : place_order env.accounts env.ticker
                    env.buyResp env.sellResp
                    (track_order env.getOrder st.orders cur).2 cur signal
                    product distance with e | r
                · rw [hpl] at hpa
                  cases hpa
                · rw [hpl] at hpa
                  cases hpa
                  rcases place_order_orders env.accounts env.ticker
                      env.buyResp env.sellResp _ cur signal product
                      distance r hpl with h1 | ⟨o, h1⟩
                  · rw [h1, hother]
                    exact hd
                  · rw [h1, dictGet_dictSet_ne _ _ _ _ hcc, hother]
                    exact hd
        · rw [if_neg hpos] at hpa
          cases hpa
          exact hd

/-- The account loop preserves the connError-guarded order entry. -/
theorem nextAux_preserves (env : Env) (c : String) (od : Order)
    (oid : String) (hid : od.id = some oid)
    (hgo : env.getOrder oid = TradeResp.connError) :
    ∀ (accounts : List Account) (st st' : StratState),
      dictGet st.orders c = some (some od) →
      nextAux env accounts st = Except.ok st' →
      dictGet st'.orders c = some (some od) := by
  intro accounts
  induction accounts with
  | nil =>
    intro st st' hd hok
    cases hok
    exact hd
  | cons a rest ih =>
    intro st st' hd hok
    unfold nextAux at hok
    rcases hres : processAccount env st a with e | stm
    · rw [hres] at hok
      cases hok
    · rw [hres] at hok
      exact ih stm st'
        (processAccount_preserves env st a c od oid hid hgo hd stm hres)
        hok

/-- C7. If an order is open for a currency and the provider's
`get_order` raises a transient `ConnectionError` for its id, the
stored order is unchanged when the cycle completes; if instead the
status query answers with status `'done'` and `settled == True`,
`_track_order` clears the stored order to absent (`None`). -/
theorem C7_theorem :
    (∀ (env : Env) (st st' : StratState) (c : String) (od : Order)
      (oid : String), od.id = some oid →
      env.getOrder oid = TradeResp.connError →
      dictGet st.orders c = some (some od) →
      next env st = Except.ok st' →
      dictGet st'.orders c = some (some od)) ∧
    (∀ (go : String → TradeResp) (orders : Dict String (Option Order))
      (c : String) (od resp : Order) (oid : String),
      dictGet orders c = some (some od) → od.id = some oid →
      go oid = TradeResp.resp resp → resp.status = some "done" →
      resp.settled = some true →
      track_order go orders c = (false, dictSet orders c none) ∧
      dictGet (track_order go orders c).2 c = some none) := by
  constructor
  · intro env st st' c od oid hid hgo hd hok
    exact nextAux_preserves env c od oid hid hgo env.accounts st st' hd hok
  · intro go orders c od resp oid hd hid hgo hdone hsettled
    have h1 : track_order go orders c = (false, dictSet orders c none) := by
      simp only [track_order, hd, hid, hgo]
      rw [if_pos]
      exact Or.inr (Or.inr (Or.inr ⟨hdone, hsettled⟩))
    refine ⟨h1, ?_⟩
    rw [h1]
    exact dictGet_dictSet_eq _ _ _

/-- Witness for C7: the concrete single-account environment — a
transient failure leaves the USD order in place over a full `next()`,
and a done+settled response makes `_track_order` clear it. -/
theorem C7_witness :
    ∃ st', next c7Env c7State = Except.ok st' ∧
      dictGet st'.orders "USD" = some (some openOrder) ∧
      track_order (fun _ => TradeResp.resp doneOrder) c7State.orders
          "USD" = (false, dictSet c7State.orders "USD" none) := by
  have hnext : next c7Env c7State =
      Except.ok ⟨"USD", [("USD", some openOrder)]⟩ := by
    with_unfolding_all decide
  refine ⟨_, hnext, ?_, ?_⟩
  · exact C7_theorem.1 c7Env c7State _ "USD" openOrder "7"
      (by with_unfolding_all decide) rfl (by with_unfolding_all decide)
      hnext
  · exact (C7_theorem.2 (fun _ => TradeResp.resp doneOrder)
      c7State.orders "USD" openOrder doneOrder "7"
      (by with_unfolding_all decide) (by with_unfolding_all decide) rfl
      (by with_unfolding_all decide) (by with_unfolding_all decide)).1

/-- C10. `find_arbitrage_path` raises `KeyError` whenever `start` is
not a node key of the graph; `_get_currency_path` catches only
`AttributeError`, so the `KeyError` escapes it (as a `KeyError`, not a
`MissingCurrencyGraph`), and `next()` — which catches only
`MissingCurrencyGraph` — lets it propagate out of the whole tick. -/
theorem C10_theorem (cg : CurrencyGraph) (current_node : String)
    (h : CurrencyGraph.get_bid current_node ∉
      dictKeys cg.currency_graph) :
    cg.find_arbitrage_path (CurrencyGraph.get_bid current_node)
        (CurrencyGraph.get_ask TARGET_NODE) =
      Except.error PyError.keyError ∧
    get_currency_path (some cg) current_node =
      Except.error (StratError.py PyError.keyError) ∧
    (∀ (products : List String) (ticker : Dict String Ticker),
      build_currency_graph products ticker = Except.ok (some cg) →
      get_trade_signal products ticker current_node =
        Except.error (StratError.py PyError.keyError)) ∧
    (∀ (env : Env) (a : Account) (st : StratState) (balS : String)
      (bal : ℚ), env.accounts = [a] → a.currency = some current_node →
      a.balance = some balS → parseDecimal balS = some bal → 0 < bal →
      build_currency_graph env.products env.ticker =
        Except.ok (some cg) →
      next env st = Except.error PyError.keyError) := by
  have h1 : cg.find_arbitrage_path (CurrencyGraph.get_bid current_node)
      (CurrencyGraph.get_ask TARGET_NODE) =
      Except.error PyError.keyError := by
    unfold CurrencyGraph.find_arbitrage_path
    rw [if_neg h]
  have h2 : get_currency_path (some cg) current_node =
      Except.error (StratError.py PyError.keyError) := by
    simp only [get_currency_path, h1]
  have h3 : ∀ (products : List String) (ticker : Dict String Ticker),
      build_currency_graph products ticker = Except.ok (some cg) →
      get_trade_signal products ticker current_node =
        Except.error (StratError.py PyError.keyError) := by
    intro products ticker hbuild
    unfold get_trade_signal
    rw [hbuild]
    dsimp only
    rw [h2]
  refine ⟨h1, h2, h3, ?_⟩
  intro env a st balS bal hacc hcur hbal hparse hpos hbuild
  have hpa : processAccount env st a = Except.error PyError.keyError := by
    unfold processAccount
    rw [hcur, hbal]
    dsimp only
    rw [hparse]
    dsimp only
    rw [if_pos hpos, h3 env.products env.ticker hbuild]
  unfold next
  rw [hacc]
  simp only [nextAux, hpa]

/-- Witness for C10: the empty graph (no pair ever added), held
currency `'USD'`. -/
theorem C10_witness :
    CurrencyGraph.init.find_arbitrage_path
        (CurrencyGraph.get_bid "USD") (CurrencyGraph.get_ask TARGET_NODE) =
      Except.error PyError.keyError ∧
    get_currency_path (some CurrencyGraph.init) "USD" =
      Except.error (StratError.py PyError.keyError) :=
  have h := C10_theorem CurrencyGraph.init "USD" (by with_unfolding_all decide)
  ⟨h.1, h.2.1⟩

/-- With no open order and a `Decimal` market price, a spread that
does not strictly exceed the threshold makes `_place_order` return
`False` without touching any state or contacting the provider. -/
theorem place_order_no_action (accounts : List Account)
    (ticker : Dict String Ticker) (buyResp sellResp : TradeResp)
    (orders : Dict String (Option Order)) (current_node : String)
    (signal : TradeSignal) (product : String) (distance mp : ℚ)
    (hopen : dictGet orders current_node = some none ∨
      dictGet orders current_node = none)
    (hmp : get_market_price orders current_node ticker signal product =
      MarketPrice.dec mp)
    (hng : ¬ (distance / mp > THRESHOLD)) :
    place_order accounts ticker buyResp sellResp orders current_node
      signal product distance = Except.ok ⟨orders, false⟩ := by
  rcases hopen with h | h <;>
    simp only [place_order, h, hmp] <;> rw [if_neg hng]

/-- With no open order, a `Decimal` market price and a spread strictly
above the threshold, `_place_order` reaches a sizing line and raises
the uncaught `TypeError` (float or `None` balance mixed with the
`Decimal` market price), for Buy and Sell alike: the provider is
never contacted. -/
theorem place_order_above_threshold (accounts : List Account)
    (ticker : Dict String Ticker) (buyResp sellResp : TradeResp)
    (orders : Dict String (Option Order)) (current_node : String)
    (signal : TradeSignal) (product : String) (distance mp : ℚ)
    (hopen : dictGet orders current_node = some none ∨
      dictGet orders current_node = none)
    (hmp : get_market_price orders current_node ticker signal product =
      MarketPrice.dec mp)
    (hgt : distance / mp > THRESHOLD) :
    place_order accounts ticker buyResp sellResp orders current_node
      signal product distance = Except.error PyError.typeError := by
  rcases hopen with h | h <;>
    simp only [place_order, h, hmp] <;> rw [if_pos hgt] <;>
    cases signal <;> rfl

/-- C5.  The claim's boundary half holds: at placement with no open
order, `spread == threshold` (market price 1, `distance` equal to the
float threshold) places nothing and changes nothing.  Its other half
is wrong of the code as written: with spread strictly above the
threshold (here 5 > 1.002, a USD balance of 10 available for the Buy
sizing), the sizing line mixes the float balance with the `Decimal`
market price and raises an uncaught `TypeError` — no order is ever
submitted and the tick aborts. -/
theorem C5_theorem :
    place_order [] oneTicker TradeResp.connError TradeResp.connError []
        "USD" TradeSignal.buy "BTC-USD" THRESHOLD =
      Except.ok ⟨[], false⟩ ∧
    place_order c5Accounts c2Ticker TradeResp.connError
        TradeResp.connError [] "USD" TradeSignal.buy "BTC-USD" 5 =
      Except.error PyError.typeError ∧
    get_currency_balance c5Accounts "USD" = some 10 ∧
    (5 : ℚ) / 1 > THRESHOLD := by
  refine ⟨?_, ?_, ?_, by norm_num [THRESHOLD]⟩
  · with_unfolding_all decide
  · with_unfolding_all decide
  · with_unfolding_all decide

/-- C2. The claim states the submitted Sell size equals the
base-currency balance.  With a BTC balance of 2, ask price 3 and
spread 4/3 above the threshold, nothing at all is submitted: the
sizing line `balance * market_price` mixes the float balance with the
`Decimal` price and raises an uncaught `TypeError` before
`trader.sell` is reached. -/
theorem C2_counterexample :
    place_order c2Accounts c2Ticker TradeResp.connError
        TradeResp.connError [] "USD" TradeSignal.sell "BTC-USD" 4 =
      Except.error PyError.typeError ∧
    get_currency_balance c2Accounts "BTC" = some 2 ∧
    (4 : ℚ) / 3 > THRESHOLD := by
  refine ⟨?_, ?_, by norm_num [THRESHOLD]⟩
  · with_unfolding_all decide
  · with_unfolding_all decide

/-- C2 (amended). Whenever order placement is reached (no open order
for the held currency) and the derived signal is Sell with spread
strictly above the threshold, no size is ever submitted to the
provider: the sizing line `balance * market_price` mixes the float
balance returned by `get_currency_balance` with the `Decimal` market
price and raises an uncaught `TypeError`, aborting the tick before
`trader.sell` is called. -/
theorem C2_theorem (accounts : List Account) (ticker : Dict String Ticker)
    (buyResp sellResp : TradeResp) (orders : Dict String (Option Order))
    (current_node : String) (product : String) (distance mp : ℚ)
    (hopen : dictGet orders current_node = some none ∨
      dictGet orders current_node = none)
    (hmp : get_market_price orders current_node ticker TradeSignal.sell
      product = MarketPrice.dec mp)
    (hgt : distance / mp > THRESHOLD) :
    place_order accounts ticker buyResp sellResp orders current_node
      TradeSignal.sell product distance = Except.error PyError.typeError :=
  place_order_above_threshold accounts ticker buyResp sellResp orders
    current_node TradeSignal.sell product distance mp hopen hmp hgt

/-- Witness for C2 (amended) on the concrete sell scenario (BTC
balance 2, ask 3, distance 6). -/
theorem C2_witness :
    place_order c2Accounts c2Ticker TradeResp.connError
      TradeResp.connError [] "USD" TradeSignal.sell "BTC-USD" 6 =
      Except.error PyError.typeError :=
  C2_theorem c2Accounts c2Ticker TradeResp.connError TradeResp.connError
    [] "USD" "BTC-USD" 6 3 (Or.inr rfl)
    (by with_unfolding_all decide) (by norm_num [THRESHOLD])

/-- C3. The claim states a reconciled order is cancelled iff the
product or the price differs.  An order 30 seconds old whose recorded
price (1) differs from the recomputed market price (2) on the same
product is *not* cancelled: the code also requires the order to be
more than one minute old. -/
theorem C3_counterexample :
    update_pending_order 30 c3Ticker [("USD", some openOrder)] "USD"
        TradeSignal.buy "BTC-USD" = Except.ok (true, false) ∧
    get_market_price [("USD", some openOrder)] "USD" c3Ticker
        TradeSignal.buy "BTC-USD" = MarketPrice.dec 2 ∧
    parseDecimal "1" = some 1 ∧ ¬ ((1 : ℚ) = 2) := by
  refine ⟨?_, ?_, ?_, by norm_num⟩
  · with_unfolding_all decide
  · with_unfolding_all decide
  · with_unfolding_all decide

/-- C3 (amended). For a reconciled order whose recorded product,
price and creation time are present and parse, `_update_pending_order`
returns `True` and requests cancellation iff the order is more than
one minute old *and* (the recorded product differs from the derived
product, or the recorded price differs from the recomputed market
price — where an invalid-ticker fallback, being the raw recorded
string or `None` rather than a `Decimal`, always counts as
differing). -/
theorem C3_theorem (now : ℚ) (ticker : Dict String Ticker)
    (orders : Dict String (Option Order)) (current_node : String)
    (signal : TradeSignal) (product : String) (od : Order)
    (pid priceS created_atS : String) (price created_at : ℚ)
    (hord : dictGet orders current_node = some (some od))
    (hpid : od.product_id = some pid) (hprS : od.price = some priceS)
    (hcaS : od.created_at = some created_atS)
    (hpp : parseDecimal priceS = some price)
    (hcp : parseDecimal created_atS = some created_at) :
    ∃ cancel, update_pending_order now ticker orders current_node signal
        product = Except.ok (true, cancel) ∧
      (cancel = true ↔ (now - created_at > 60 ∧ (pid ≠ product ∨
        ∀ q, get_market_price orders current_node ticker signal product =
          MarketPrice.dec q → price ≠ q))) := by
  have hdiff : ((match get_market_price orders current_node ticker signal
        product with
      | MarketPrice.dec q => decide (price ≠ q)
      | MarketPrice.raw _ => true
      | MarketPrice.pynone => true) = true) ↔
      (∀ q, get_market_price orders current_node ticker signal product =
        MarketPrice.dec q → price ≠ q) := by
    rcases hm : get_market_price orders current_node ticker signal
        product with q | s | _
    · simp only [decide_eq_true_eq]
      constructor
      · intro hne q' hq'
        cases hq'
        exact hne
      · intro hall
        exact hall q rfl
    · simp only [true_iff]
      intro q' hq'
      cases hq'
    · simp only [true_iff]
      intro q' hq'
      cases hq'
  simp only [update_pending_order, hord, hpid, hprS, hcaS, hpp, hcp]
  by_cases hA : now - created_at > 60 ∧ (¬ pid = product ∨
      (match get_market_price orders current_node ticker signal product
        with
      | MarketPrice.dec q => decide (price ≠ q)
      | MarketPrice.raw _ => true
      | MarketPrice.pynone => true) = true)
  · refine ⟨true, by rw [if_pos hA], ?_⟩
    exact iff_of_true rfl ⟨hA.1, hA.2.imp (fun h => h) hdiff.mp⟩
  · refine ⟨false, by rw [if_neg hA], ?_⟩
    refine iff_of_false (by simp) (fun hr => hA ?_)
    exact ⟨hr.1, hr.2.imp (fun h => h) hdiff.mpr⟩

/-- Witness for C3 (amended): the concrete 30-second-old order. -/
theorem C3_witness :
    ∃ cancel, update_pending_order 30 c3Ticker [("USD", some openOrder)]
        "USD" TradeSignal.buy "BTC-USD" = Except.ok (true, cancel) ∧
      (cancel = true ↔ ((30 : ℚ) - 0 > 60 ∧ ("BTC-USD" ≠ "BTC-USD" ∨
        ∀ q, get_market_price [("USD", some openOrder)] "USD" c3Ticker
          TradeSignal.buy "BTC-USD" = MarketPrice.dec q →
          (1 : ℚ) ≠ q))) :=
  C3_theorem 30 c3Ticker [("USD", some openOrder)] "USD"
    TradeSignal.buy "BTC-USD" openOrder "BTC-USD" "1" "0" 1 0
    (by with_unfolding_all decide) rfl rfl rfl
    (by with_unfolding_all decide) (by with_unfolding_all decide)

/-- One account iteration of `next()` sets `current_node` to the
account's currency exactly when the account qualifies (balance parses
to a number > 0), and leaves it alone otherwise. -/
theorem processAccount_current (env : Env) (st : StratState) (a : Account)
    (stm : StratState) (hpa : processAccount env st a = Except.ok stm) :
    stm.current_node = (qualifyingCurrency a).getD st.current_node := by
  unfold processAccount at hpa
  rcases hc : a.currency with _ | cur
  · rw [hc] at hpa
    dsimp only at hpa
    cases hpa
    simp [qualifyingCurrency, hc]
  · rw [hc] at hpa
    rcases hb : a.balance with _ | balS
    · rw [hb] at hpa
      dsimp only at hpa
      cases hpa
      simp [qualifyingCurrency, hc, hb]
    · rw [hb] at hpa
      dsimp only at hpa
      rcases hp : parseDecimal balS with _ | bal
      · rw [hp] at hpa
        dsimp only at hpa
        cases hpa
        simp [qualifyingCurrency, hc, hb, hp]
      · rw [hp] at hpa
        dsimp only at hpa
        by_cases hpos : bal > 0
        · rw [if_pos hpos] at hpa
          have hq : (qualifyingCurrency a).getD st.current_node = cur := by
            simp [qualifyingCurrency, hc, hb, hp, hpos]
          rw [hq]
          rcases hsig : get_trade_signal env.products env.ticker cur with
            e | ⟨signal, product, distance⟩
          · rw [hsig] at hpa
            rcases e with _ | e
            · cases hpa
              rfl
            · cases hpa
          · rw [hsig] at hpa
            dsimp only at hpa
            split at hpa
            · split at hpa
              · cases hpa
              · cases hpa
                rfl
            · rcases hpl : place_order env.accounts env.ticker
                  env.buyResp env.sellResp
                  (track_order env.getOrder st.orders cur).2 cur signal
                  product distance with e | r
              · rw [hpl] at hpa
                cases hpa
              · rw [hpl] at hpa
                cases hpa
                rfl
        · rw [if_neg hpos] at hpa
          cases hpa
          simp [qualifyingCurrency, hc, hb, hp, hpos]

/-- Over the whole account loop, `current_node` ends as the left fold
that replaces it with each qualifying account's currency in turn. -/
theorem nextAux_current (env : Env) :
    ∀ (accounts : List Account) (st st' : StratState),
      nextAux env accounts st = Except.ok st' →
      st'.current_node = accounts.foldl
        (fun cur a => (qualifyingCurrency a).getD cur) st.current_node := by
  intro accounts
  induction accounts with
  | nil =>
    intro st st' hok
    cases hok
    rfl
  | cons a rest ih =>
    intro st st' hok
    unfold nextAux at hok
    rcases hres : processAccount env st a with e | stm
    · rw [hres] at hok
      cases hok
    · rw [hres] at hok
      have h1 := processAccount_current env st a stm hres
      simp only [List.foldl_cons, ← h1]
      exact ih stm st' hok

/-- C4 (amended). On every completed tick, `current_node` ends equal
to scanning `accounts` in order and replacing it by each account whose
balance parses as a number > 0 — i.e. the *last* qualifying account
wins, not the first (`next()` keeps processing the loop after a
qualifying account instead of stopping); when no account qualifies it
is left unchanged (last-known-good fallback). -/
theorem C4_theorem :
    (∀ (env : Env) (st st' : StratState),
      next env st = Except.ok st' →
      st'.current_node = env.accounts.foldl
        (fun cur a => (qualifyingCurrency a).getD cur) st.current_node) ∧
    (∀ (env : Env) (st st' : StratState),
      (∀ a ∈ env.accounts, qualifyingCurrency a = none) →
      next env st = Except.ok st' →
      st'.current_node = st.current_node) := by
  have h1 : ∀ (env : Env) (st st' : StratState),
      next env st = Except.ok st' →
      st'.current_node = env.accounts.foldl
        (fun cur a => (qualifyingCurrency a).getD cur) st.current_node :=
    fun env st st' hok => nextAux_current env env.accounts st st' hok
  refine ⟨h1, ?_⟩
  intro env st st' hnone hok
  rw [h1 env st st' hok]
  have : ∀ (l : List Account) (c : String),
      (∀ a ∈ l, qualifyingCurrency a = none) →
      l.foldl (fun cur a => (qualifyingCurrency a).getD cur) c = c := by
    intro l
    induction l with
    | nil => intro c _; rfl
    | cons a rest ih =>
      intro c hn
      simp only [List.foldl_cons, hn a (List.mem_cons_self a rest)]
      exact ih c fun a' ha' => hn a' (List.mem_cons_of_mem a ha')
  exact this env.accounts st.current_node hnone

/-- C4. The claim states the *first* positive account is kept as the
held currency.  With two positive accounts `A` then `B` (and no ticker
data, so each iteration logs and continues), the tick completes with
`current_node = 'B'`, the last one — not `'A'`. -/
theorem C4_counterexample :
    next c4Env ⟨"USD", []⟩ = Except.ok ⟨"B", []⟩ ∧ "B" ≠ "A" := by
  constructor
  · with_unfolding_all decide
  · decide

/-- Witness for C4 (amended) on the two-account environment. -/
theorem C4_witness :
    ∃ st', next c4Env ⟨"USD", []⟩ = Except.ok st' ∧
      st'.current_node = c4Env.accounts.foldl
        (fun cur a => (qualifyingCurrency a).getD cur) "USD" := by
  have h : next c4Env ⟨"USD", []⟩ = Except.ok ⟨"B", []⟩ := by
    with_unfolding_all decide
  exact ⟨_, h, C4_theorem.1 c4Env ⟨"USD", []⟩ ⟨"B", []⟩ h⟩

theorem exceptBind_ok {ε α β : Type} (x : α) (f : α → Except ε β) :
    ((Except.ok x : Except ε α) >>= f) = f x := rfl

/-- `get_currency_pair` agrees with the spec-worded first-match
resolution. -/
theorem findPair_eq_specResolve (pairs : List (String × String))
    (c1 c2 : String) :
    findPair pairs c1 c2 =
      match specResolvePair pairs c1 c2 with
      | some (b, q) => (some b, some q)
      | none => (none, none) := by
  induction pairs with
  | nil => rfl
  | cons p ps ih =>
    obtain ⟨base, quote⟩ := p
    by_cases h : (base = c1 ∨ base = c2) ∧ (quote = c1 ∨ quote = c2)
    · rw [show findPair ((base, quote) :: ps) c1 c2 = (some base, some quote)
        from by simp [findPair, h]]
      unfold specResolvePair
      rw [@List.find?_cons_of_pos _
        (fun bq => decide ((bq.1 = c1 ∨ bq.1 = c2) ∧ (bq.2 = c1 ∨ bq.2 = c2)))
        (base, quote) ps (decide_eq_true h)]
    · rw [show findPair ((base, quote) :: ps) c1 c2 = findPair ps c1 c2
        from by simp [findPair, h]]
      unfold specResolvePair
      rw [@List.find?_cons_of_neg _
        (fun bq => decide ((bq.1 = c1 ∨ bq.1 = c2) ∧ (bq.2 = c1 ∨ bq.2 = c2)))
        (base, quote) ps (by simpa using h)]
      exact ih

/-- The loop of `get_next_currency_pair` lands on exactly the pair the
spec describes whenever some scanned node is a Bid node. -/
theorem nextPairScan_spec :
    ∀ (path : List Node), 2 ≤ path.length →
      (∃ n ∈ path.dropLast, n.2 = Side.bid) →
      ∃ pr, specFirstBidPair path = some pr ∧
        nextPairScan (path.map some) =
          Except.ok (some pr.1, some pr.2) := by
  intro path
  induction path with
  | nil => intro hlen; simp at hlen
  | cons a rest ih =>
    intro hlen hbid
    rcases rest with _ | ⟨b, rest'⟩
    · simp at hlen
    · by_cases hab : a.2 = Side.bid
      · refine ⟨(a, b), ?_, ?_⟩
        · simp [specFirstBidPair, hab]
        · simp [nextPairScan, is_bid, hab, exceptBind_ok, pure,
            Except.pure]
      · rcases rest' with _ | ⟨c, rest''⟩
        · exfalso
          obtain ⟨n, hn, hnb⟩ := hbid
          simp only [List.dropLast, List.mem_singleton] at hn
          subst hn
          exact hab hnb
        · have hbid' : ∃ n ∈ (b :: c :: rest'').dropLast,
              n.2 = Side.bid := by
            obtain ⟨n, hn, hnb⟩ := hbid
            have hn3 : n = a ∨ n = b ∨ n ∈ (c :: rest'').dropLast := by
              simpa using hn
            rcases hn3 with h1 | h1 | h1
            · exact absurd (h1 ▸ hnb) hab
            · exact ⟨n, by simp [h1], hnb⟩
            · exact ⟨n, by simp [h1], hnb⟩
          obtain ⟨pr, hpr1, hpr2⟩ := ih (by simp) hbid'
          refine ⟨pr, ?_, ?_⟩
          · simpa [specFirstBidPair, hab] using hpr1
          · simpa [nextPairScan, is_bid, hab, exceptBind_ok, pure,
              Except.pure] using hpr2

/-- C6. For every path of proper nodes that contains a Bid node among
its scanned positions, `get_next_signal` implements the spec's
`bestPathToSignal`: first Bid node, the pair it forms with its
successor, first-match resolution to an added pair, Buy on quote
match, Sell on base match, and a no-op `none` otherwise. -/
theorem C6_theorem (g : CurrencyGraph) (path : List Node)
    (hlen : 2 ≤ path.length)
    (hbid : ∃ n ∈ path.dropLast, n.2 = Side.bid) :
    g.get_next_signal (path.map some) =
      Except.ok (specNextSignal g path) := by
  obtain ⟨⟨a, b⟩, hspec, hscan⟩ := nextPairScan_spec path hlen hbid
  unfold CurrencyGraph.get_next_signal CurrencyGraph.get_next_currency_pair
    CurrencyGraph.get_currency_pair
  rw [hscan]
  unfold specNextSignal
  rw [hspec]
  simp only [exceptBind_ok, get_currency, findPair_eq_specResolve]
  rcases hfp : specResolvePair g.currency_pairs a.1 b.1 with _ | ⟨base, quote⟩
  · simp [optStr, exceptBind_ok, pure, Except.pure]
  · by_cases hq : quote = a.1
    · simp [optStr, hq, exceptBind_ok, pure, Except.pure]
    · by_cases hb2 : base = a.1
      · simp [optStr, hq, hb2, exceptBind_ok, pure, Except.pure]
      · simp [optStr, hq, hb2, exceptBind_ok, pure, Except.pure]

/-- Witness for C6: the two-node path of the one-pair graph derives a
Sell signal on `A-B`. -/
theorem C6_witness :
    pairGraphAB.get_next_signal
        ([("A", Side.bid), ("B", Side.ask)].map some) =
      Except.ok (specNextSignal pairGraphAB
        [("A", Side.bid), ("B", Side.ask)]) :=
  C6_theorem pairGraphAB [("A", Side.bid), ("B", Side.ask)]
    (by with_unfolding_all decide) (by with_unfolding_all decide)

/-- C8. During every run of `find_arbitrage_path`, a relaxation whose
target `next` already lies on the live-reconstructed path from `start`
to `node` changes nothing (`distance[next]` and `parents[next]`
included), and consequently every reconstructed answer path is free of
repeated nodes. -/
theorem C8_theorem :
    (∀ (start node : Node) (s : SearchState) (e : Node × ℚ),
      some e.1 ∈ get_path s.parents start node →
      relaxEdge start node s e = s) ∧
    (∀ (cg : CurrencyGraph) (start target : Node)
      (p : List (Option Node)) (d : ℚ),
      cg.find_arbitrage_path start target = Except.ok (p, d) →
      p.Nodup) := by
  constructor
  · intro start node s e hmem
    unfold relaxEdge
    dsimp only
    rw [if_pos hmem]
  · intro cg start target p d hfind
    unfold CurrencyGraph.find_arbitrage_path at hfind
    by_cases hs : start ∈ dictKeys cg.currency_graph
    · rw [if_pos hs] at hfind
      dsimp only at hfind
      have hpair := Except.ok.inj hfind
      have hp : get_path
          (searchLoop cg.currency_graph start
            ((dictKeys cg.currency_graph).length + 1) start
            { visited := fun _ => false,
              distance := fun x => if x = start then 1 else 0,
              parents := fun _ => none }).parents start target = p :=
        congrArg Prod.fst hpair
      rw [← hp]
      exact get_path_nodup _ _ _
        (searchLoop_cycFree _ _ _ _ _ (cycFree_init start))
    · rw [if_neg hs] at hfind
      cases hfind

/-- Witness for C8: the guard fires on the concrete initial state of
the one-pair graph, and the concrete answer path of `C1_theorem`'s run
is duplicate-free. -/
theorem C8_witness :
    (relaxEdge ("A", Side.bid) ("A", Side.bid)
        { visited := fun _ => false,
          distance := fun x => if x = (("A" : String), Side.bid) then 1 else 0,
          parents := fun _ => none }
        ((("A" : String), Side.bid), (1 : ℚ)) =
      { visited := fun _ => false,
        distance := fun x => if x = (("A" : String), Side.bid) then 1 else 0,
        parents := fun _ => none }) ∧
    ([some (("A" : String), Side.bid), some ("B", Side.ask)] :
      List (Option Node)).Nodup :=
  ⟨C8_theorem.1 ("A", Side.bid) ("A", Side.bid) _ _
      (by with_unfolding_all decide),
   C8_theorem.2 pairGraphAB ("A", Side.bid) ("B", Side.ask)
     [some ("A", Side.bid), some ("B", Side.ask)] (1 / 2)
     (by with_unfolding_all decide)⟩

/-- C1. The claim states that after `add_currency_pair('A','B',2,0.5)`,
`find_arbitrage_path('A_bid', 'B_ask')` returns distance exactly 2.
It returns distance 1/2 ≠ 2: candidates are formed by *dividing* by
the edge weight, and the edge `A_bid → B_ask` has weight
`1/ask = 2`. -/
theorem C1_counterexample :
    pairGraphAB.find_arbitrage_path (CurrencyGraph.get_bid "A")
        (CurrencyGraph.get_ask "B") =
      Except.ok ([some ("A", Side.bid), some ("B", Side.ask)], 1 / 2) ∧
    ¬ ((1 : ℚ) / 2 = 2) := by
  constructor
  · with_unfolding_all decide
  · norm_num

/-- C1 (amended). After `add_currency_pair('A','B',bid=2,ask=0.5)`,
`find_arbitrage_path` from the A/Bid node to the B/Ask node returns a
distance of exactly 1/2 (and the two-node path `[A_bid, B_ask]`). -/
theorem C1_theorem :
    pairGraphAB.find_arbitrage_path (CurrencyGraph.get_bid "A")
        (CurrencyGraph.get_ask "B") =
      Except.ok ([some ("A", Side.bid), some ("B", Side.ask)], 1 / 2) := by
  with_unfolding_all decide

/-- C9. The claim states that `find_arbitrage_path(start, start)`
always returns distance exactly 1.  On `truncGraph` (a graph in which
`S_bid` is a node) it returns 32: the profitable cycle is 19 hops
long, the live path reconstruction is truncated at 16 hops, so the
final edge back into `S_bid` passes the cycle guard and overwrites
`distance[S_bid]`. -/
theorem C9_counterexample :
    truncGraph.find_arbitrage_path ("S", Side.bid) ("S", Side.bid) =
      Except.ok ([some ("S", Side.bid)], 32) ∧
    ("S", Side.bid) ∈ dictKeys truncGraph.currency_graph ∧
    ¬ ((32 : ℚ) = 1) := by
  refine ⟨?_, ?_, by norm_num⟩
  · with_unfolding_all decide
  · with_unfolding_all decide

/-- C9 (amended). For every graph in which `start` is a node,
`find_arbitrage_path(start, start)` returns the length-1 path
`[start]` and a distance of at least 1 (exactly 1 can fail once the
16-hop truncation of the live path reconstruction lets an edge back
into `start` update it, as `C9_counterexample` shows). -/
theorem C9_theorem (cg : CurrencyGraph) (start : Node)
    (h : start ∈ dictKeys cg.currency_graph) :
    ∃ d, cg.find_arbitrage_path start start =
      Except.ok ([some start], d) ∧ 1 ≤ d := by
  unfold CurrencyGraph.find_arbitrage_path
  rw [if_pos h]
  dsimp only
  rw [get_path_self]
  refine ⟨_, rfl, ?_⟩
  have hmono := searchLoop_distance_mono cg.currency_graph start
    ((dictKeys cg.currency_graph).length + 1) start
    { visited := fun _ => false,
      distance := fun x => if x = start then 1 else 0,
      parents := fun _ => none } start
  simpa using hmono

/-- Witness for C9 (amended): applied to the concrete one-pair graph.
-/
theorem C9_witness :
    ∃ d, pairGraphAB.find_arbitrage_path ("A", Side.bid) ("A", Side.bid) =
      Except.ok ([some ("A", Side.bid)], d) ∧ 1 ≤ d :=
  C9_theorem pairGraphAB ("A", Side.bid) (by with_unfolding_all decide)

end Gdax
